import Mathlib

/-!
# Verification of the SIWA message protocol and server core

A shallow embedding of the SIWA ("Sign In With Agent") TypeScript sources:
the message codec (`packages/core/message.js`), the signature-verification
pipeline (`packages/core/verify.js`), the server state machine
(`packages/server/index.js`) and the Redis-backed stores
(`packages/server/src/redis.ts`).

JavaScript strings are modelled as `List Char` (named `JStr`); JS `split`
and `join` become `List.splitOn` / `List.intercalate`; JS object field maps
become functions `JStr → Option JStr`; `Date` values become integer epoch
milliseconds, with `new Date(string)` abstracted to an evaluation function
`JStr → Option Int` (`none` plays the role of `Invalid Date`/`NaN`, which
compares false against everything).  External cryptographic collaborators
(base58/base64 codecs, the Ed25519 primitive, the curve check inside
`PublicKey.isOnCurve`) are parameters gathered in a `CryptoApi` structure,
exactly the points where the source calls into `@solana/web3.js`,
`bs58`, `Buffer` and `tweetnacl`.
-/

/-- JavaScript strings, modelled as lists of characters. -/
abbrev JStr := List Char

/-- The characters treated as whitespace by JS `String.prototype.trim` and
by the `\s` class in the field regex: the ECMAScript WhiteSpace set (TAB,
VT, FF, SP, NBSP, ZWNBSP and the Unicode Space_Separator category) together
with the LineTerminator set (LF, CR, LS, PS). -/
def jsWs (c : Char) : Bool :=
  c == '\t' || c == '\n' || c == '\x0b' || c == '\x0c' || c == '\r' || c == ' ' ||
  c == '\u00A0' || c == '\u1680' || ('\u2000' ≤ c && c ≤ '\u200A') ||
  c == '\u2028' || c == '\u2029' || c == '\u202F' || c == '\u205F' ||
  c == '\u3000' || c == '\uFEFF'

/-- The ECMAScript LineTerminator characters, which `.` in a regex without
the `s` flag does not match (negated classes such as `[^:]` still do). -/
def isLineTerm (c : Char) : Bool :=
  c == '\n' || c == '\r' || c == '\u2028' || c == '\u2029'

/-- JS `String.prototype.trim`: strip leading and trailing whitespace. -/
def jsTrim (s : JStr) : JStr :=
  ((s.dropWhile jsWs).reverse.dropWhile jsWs).reverse

/-- JS truthiness of an optional string: `undefined` and `""` are falsy. -/
def truthyS : Option JStr → Bool
  | some s => !s.isEmpty
  | none => false

/-- The record produced by `createMessage` / consumed by `serializeMessage`
(`SIWAMessage` in `packages/core/src/types.ts`). -/
structure SIWAMessage where
  domain : JStr
  address : JStr
  statement : Option JStr
  uri : JStr
  version : JStr
  chainId : JStr
  nonce : JStr
  issuedAt : JStr
  expirationTime : Option JStr
  notBefore : Option JStr
  requestId : Option JStr
  resources : Option (List JStr)
  deriving DecidableEq, Repr

/-- The fixed tail of the header line:
`"{domain} wants you to sign in with your Solana account:"`. -/
def headerTail : JStr := " wants you to sign in with your Solana account:".toList

/-- One `"{Key}: {value}"` line of the serialized field block. -/
def fieldLine (k v : JStr) : JStr := k ++ ':' :: ' ' :: v

/-- The literal `"Resources:"` marker line. -/
def resourcesMark : JStr := "Resources:".toList

/-- The `"- "` bullet that opens each serialized resource line. -/
def dashMark : JStr := "- ".toList

def kURI : JStr := "URI".toList
def kVersion : JStr := "Version".toList
def kChainId : JStr := "Chain ID".toList
def kNonce : JStr := "Nonce".toList
def kIssuedAt : JStr := "Issued At".toList
def kExpirationTime : JStr := "Expiration Time".toList
def kNotBefore : JStr := "Not Before".toList
def kRequestId : JStr := "Request ID".toList

/-- Serialized line of one optional field: present only when the value is
truthy, mirroring `if (message.expirationTime) lines.push(...)`. -/
def optFieldLines (k : JStr) (v : Option JStr) : List JStr :=
  if truthyS v then [fieldLine k (v.getD [])] else []

/-- Serialized lines of the resources block: present only when the resources
list exists and is non-empty, one `"- "` line per resource, in order. -/
def resLines : Option (List JStr) → List JStr
  | some rs => if rs.length > 0 then resourcesMark :: rs.map (fun r => dashMark ++ r) else []
  | none => []

/-- The list of lines pushed by `serializeMessage` before the final
`lines.join('\n')`. -/
def serializeLines (m : SIWAMessage) : List JStr :=
  [m.domain ++ headerTail, m.address]
    ++ (if truthyS m.statement then [[], m.statement.getD []] else [])
    ++ [[]]
    ++ [fieldLine kURI m.uri,
        fieldLine kVersion m.version,
        fieldLine kChainId m.chainId,
        fieldLine kNonce m.nonce,
        fieldLine kIssuedAt m.issuedAt]
    ++ optFieldLines kExpirationTime m.expirationTime
    ++ optFieldLines kNotBefore m.notBefore
    ++ optFieldLines kRequestId m.requestId
    ++ resLines m.resources

/-- `serializeMessage` from `packages/core/message.js`: the canonical
line-oriented layout, LF-joined. -/
def serializeMessage (m : SIWAMessage) : JStr :=
  ['\n'].intercalate (serializeLines m)

/-- Header-line match `/^(.+) wants you to sign in with your Solana account:$/`:
succeeds exactly when the line is a non-empty domain followed by the fixed
tail, returning the domain capture.  The capture position is forced — the
line must equal capture ++ tail, so the capture is the line minus its last
`headerTail.length` characters — and `.` (no `s` flag) rejects the
LineTerminator characters, so a capture containing one fails the match. -/
def parseHeader (l : JStr) : Option JStr :=
  if headerTail.isSuffixOf l = true ∧ headerTail.length < l.length ∧
      ∀ c ∈ l.take (l.length - headerTail.length), isLineTerm c = false then
    some (l.take (l.length - headerTail.length))
  else none

/-- The `"URI:"` test that ends the statement scan (`line.startsWith('URI:')`). -/
def uriMark : JStr := "URI:".toList

/-- The statement scan of `parseMessage`: walk the lines after the address,
remember the first non-blank line (trimmed) as the statement, and stop at the
first line starting with `"URI:"`.  Returns the statement found and, when the
`"URI:"` line exists, the lines from it onward (`fieldStartIndex`); when no
such line exists the caller falls back to scanning from index 2 again. -/
def scanForFields : List JStr → Option JStr → Option JStr × Option (List JStr)
  | [], stmt => (stmt, none)
  | l :: ls, stmt =>
    if uriMark.isPrefixOf l then (stmt, some (l :: ls))
    else
      scanForFields ls
        (if !(jsTrim l).isEmpty && stmt.isNone then some (jsTrim l) else stmt)

/-- The field regex `/^([^:]+):\s*(.+)$/` of `parseMessage`.  The key is
everything before the first colon (non-empty; `[^:]` is a negated class, so
it admits any other character including line terminators).  After the
colon, greedy `\s*` strips the maximal whitespace run and `(.+)$` must
cover the entire remainder, and `.` rejects line terminators: the match
succeeds with that remainder as the value when it is non-empty and
terminator-free; when the remainder after the colon is all whitespace,
backtracking shortens `\s*` one character, so the value is the final
whitespace character provided it is not itself a line terminator; any
remaining value containing a line terminator fails every backtracking
split, so the line does not match. -/
def fieldMatch (l : JStr) : Option (JStr × JStr) :=
  match l.dropWhile (fun c => c != ':') with
  | [] => none
  | _ :: rest =>
    let key := l.takeWhile (fun c => c != ':')
    if key.isEmpty then none
    else
      let v := rest.dropWhile jsWs
      if !v.isEmpty then
        if v.all (fun c => !isLineTerm c) then some (key, v) else none
      else if !rest.isEmpty && !isLineTerm (rest.getLastD ' ') then
        some (key, [rest.getLastD ' '])
      else none

/-- JS object assignment `fields[key] = value`. -/
def setField (fields : JStr → Option JStr) (k v : JStr) : JStr → Option JStr :=
  fun k' => if k' = k then some v else fields k'

/-- The field/resource loop of `parseMessage`: a literal `"Resources:"` line
switches into resource mode, `"- "` lines collect resources while in that
mode, any `"{Key}: {value}"` line stores a field and leaves resource mode,
and all other lines are ignored. -/
def parseFields : List JStr → (JStr → Option JStr) → List JStr → Bool →
    (JStr → Option JStr) × List JStr
  | [], fields, res, _ => (fields, res)
  | l :: ls, fields, res, inRes =>
    if l = resourcesMark then parseFields ls fields res true
    else if inRes && dashMark.isPrefixOf l then
      parseFields ls fields (res ++ [l.drop 2]) inRes
    else
      match fieldMatch l with
      | some kv => parseFields ls (setField fields kv.1 kv.2) res false
      | none => parseFields ls fields res inRes

/-- The required-field list checked at the end of `parseMessage`, in source
order. -/
def requiredKeys : List JStr := [kURI, kVersion, kChainId, kNonce, kIssuedAt]

/-- Everything `parseMessage` does after `text.split('\n')`. -/
def parseLines (lines : List JStr) : Except String SIWAMessage :=
  match parseHeader (lines.headD []) with
  | none => .error "Invalid SIWA message: missing header"
  | some domain =>
    let address := jsTrim ((lines.drop 1).headD [])
    if address.isEmpty then .error "Invalid SIWA message: missing address"
    else
      let scanned := scanForFields (lines.drop 2) none
      let fieldLs := scanned.2.getD (lines.drop 2)
      let parsed := parseFields fieldLs (fun _ => none) [] false
      match requiredKeys.find? (fun k => !truthyS (parsed.1 k)) with
      | some k => .error ("Invalid SIWA message: missing " ++ String.mk k)
      | none =>
        .ok { domain := domain
              address := address
              statement := scanned.1
              uri := (parsed.1 kURI).getD []
              version := (parsed.1 kVersion).getD []
              chainId := (parsed.1 kChainId).getD []
              nonce := (parsed.1 kNonce).getD []
              issuedAt := (parsed.1 kIssuedAt).getD []
              expirationTime := parsed.1 kExpirationTime
              notBefore := parsed.1 kNotBefore
              requestId := parsed.1 kRequestId
              resources := if parsed.2.length > 0 then some parsed.2 else none }

/-- `parseMessage` from `packages/core/message.js`. -/
def parseMessage (text : JStr) : Except String SIWAMessage :=
  parseLines (text.splitOn '\n')

deriving instance DecidableEq for Except

/-! ## Validity of message fields

The round-trip law is quantified over messages whose fields fit the
canonical layout: every component is single-line, required components are
non-empty, the domain and every field value contain no ECMAScript line
terminator (`.` in the header and value captures rejects LF, CR, LS and
PS, so the real parser fails on such input), the address and statement
survive `trim`, field values carry no leading JS whitespace — ASCII or
Unicode — (the `\s*` of the field regex would strip it), the statement
does not itself start with `"URI:"` (the statement scan would mistake it
for the field block), and optional components are either absent or
non-empty (a present-but-empty string is falsy in JS, so the serializer
would drop it). -/

/-- A serialized field value that the field regex recovers exactly:
non-empty, free of line terminators (which `.` in the value capture cannot
match), and with no leading JS whitespace (which `\s*` would strip). -/
def ValidSeg (s : JStr) : Prop :=
  s ≠ [] ∧ (∀ c ∈ s, isLineTerm c = false) ∧ s.dropWhile jsWs = s

instance (s : JStr) : Decidable (ValidSeg s) := by
  unfold ValidSeg
  infer_instance

/-- Message fields compatible with the canonical serialized layout. -/
structure ValidMessage (m : SIWAMessage) : Prop where
  domain_ne : m.domain ≠ []
  domain_term : ∀ c ∈ m.domain, isLineTerm c = false
  address_ne : m.address ≠ []
  address_nl : '\n' ∉ m.address
  address_trim : jsTrim m.address = m.address
  statement_ok : ∀ s, m.statement = some s →
    s ≠ [] ∧ '\n' ∉ s ∧ jsTrim s = s ∧ uriMark.isPrefixOf s = false
  uri_ok : ValidSeg m.uri
  version_ok : ValidSeg m.version
  chainId_ok : ValidSeg m.chainId
  nonce_ok : ValidSeg m.nonce
  issuedAt_ok : ValidSeg m.issuedAt
  expirationTime_ok : ∀ s, m.expirationTime = some s → ValidSeg s
  notBefore_ok : ∀ s, m.notBefore = some s → ValidSeg s
  requestId_ok : ∀ s, m.requestId = some s → ValidSeg s
  resources_ok : ∀ rs, m.resources = some rs → rs ≠ [] ∧ ∀ r ∈ rs, '\n' ∉ r

/-! ## Parser lemmas -/

theorem isEmpty_false_of_ne_nil {s : JStr} (h : s ≠ []) : s.isEmpty = false := by
  cases s with
  | nil => exact absurd rfl h
  | cons c t => rfl

theorem truthyS_some {s : JStr} (h : s ≠ []) : truthyS (some s) = true := by
  simp [truthyS, isEmpty_false_of_ne_nil h]

theorem no_nl_of_noTerm {s : JStr} (h : ∀ c ∈ s, isLineTerm c = false) :
    '\n' ∉ s := by
  intro hm
  have := h '\n' hm
  simp [isLineTerm] at this

theorem noTerm_all {s : JStr} (h : ∀ c ∈ s, isLineTerm c = false) :
    s.all (fun c => !isLineTerm c) = true := by
  rw [List.all_eq_true]
  intro c hc
  simp [h c hc]

theorem parseHeader_serialized (d : JStr) (hd : d ≠ [])
    (hterm : ∀ c ∈ d, isLineTerm c = false) :
    parseHeader (d ++ headerTail) = some d := by
  have hsuf : headerTail.isSuffixOf (d ++ headerTail) = true :=
    List.isSuffixOf_iff_suffix.mpr (List.suffix_append d headerTail)
  have hlen : headerTail.length < (d ++ headerTail).length := by
    have : 0 < d.length := List.length_pos.mpr hd
    simp only [List.length_append]
    omega
  have htake : (d ++ headerTail).take ((d ++ headerTail).length - headerTail.length)
      = d := by
    have hsub : (d ++ headerTail).length - headerTail.length = d.length := by
      simp only [List.length_append]
      omega
    rw [hsub, List.take_left]
  rw [parseHeader, htake, if_pos ⟨hsuf, hlen, hterm⟩]

theorem scanForFields_blank (ls : List JStr) (stmt : Option JStr) :
    scanForFields ([] :: ls) stmt = scanForFields ls stmt := rfl

theorem scanForFields_stop (l : JStr) (ls : List JStr) (stmt : Option JStr)
    (h : uriMark.isPrefixOf l = true) :
    scanForFields (l :: ls) stmt = (stmt, some (l :: ls)) := by
  simp [scanForFields, h]

theorem scanForFields_statement (s : JStr) (ls : List JStr)
    (hne : s ≠ []) (htrim : jsTrim s = s) (hpre : uriMark.isPrefixOf s = false) :
    scanForFields (s :: ls) none = scanForFields ls (some s) := by
  simp [scanForFields, hpre, htrim, isEmpty_false_of_ne_nil hne]

theorem fieldMatch_fieldLine (k v : JStr) (hk : k ≠ [])
    (hcol : ∀ c ∈ k, (c != ':') = true)
    (hv : v ≠ []) (hv2 : v.dropWhile jsWs = v)
    (hv3 : ∀ c ∈ v, isLineTerm c = false) :
    fieldMatch (fieldLine k v) = some (k, v) := by
  have hdropk : k.dropWhile (fun c => c != ':') = [] :=
    List.dropWhile_eq_nil_iff.mpr hcol
  have hdrop : (fieldLine k v).dropWhile (fun c => c != ':') = ':' :: ' ' :: v := by
    rw [fieldLine, List.dropWhile_append]
    simp [hdropk]
  have htakek : k.takeWhile (fun c => c != ':') = k := by
    have h1 := List.takeWhile_append_dropWhile (fun c => c != ':') k
    rw [hdropk, List.append_nil] at h1
    exact h1
  have htake : (fieldLine k v).takeWhile (fun c => c != ':') = k := by
    rw [fieldLine, List.takeWhile_append]
    simp [htakek]
  have hws : (' ' :: v).dropWhile jsWs = v := by
    rw [List.dropWhile_cons]
    simp [jsWs, hv2]
  simp [fieldMatch, hdrop, htake, hws, isEmpty_false_of_ne_nil hk,
    isEmpty_false_of_ne_nil hv, noTerm_all hv3]

theorem parseFields_fieldLine (k v : JStr) (ls : List JStr)
    (fields : JStr → Option JStr) (res : List JStr)
    (hk : k ≠ []) (hcol : ∀ c ∈ k, (c != ':') = true)
    (hv : v ≠ []) (hv2 : v.dropWhile jsWs = v)
    (hv3 : ∀ c ∈ v, isLineTerm c = false)
    (hne : fieldLine k v ≠ resourcesMark) :
    parseFields (fieldLine k v :: ls) fields res false =
      parseFields ls (setField fields k v) res false := by
  simp [parseFields, hne, fieldMatch_fieldLine k v hk hcol hv hv2 hv3]

theorem parseFields_dashLines (rs : List JStr) (fields : JStr → Option JStr)
    (res : List JStr) :
    parseFields (rs.map (fun r => dashMark ++ r)) fields res true =
      (fields, res ++ rs) := by
  induction rs generalizing res with
  | nil => simp [parseFields]
  | cons r rs ih =>
    have hne : dashMark ++ r ≠ resourcesMark := by simp [dashMark, resourcesMark]
    have hpre : dashMark.isPrefixOf (dashMark ++ r) = true :=
      List.isPrefixOf_iff_prefix.mpr (List.prefix_append _ _)
    have hdrop : (dashMark ++ r).drop 2 = r := rfl
    simp [parseFields, hne, hpre, hdrop, ih]

theorem parseFields_resources (rs : List JStr) (fields : JStr → Option JStr)
    (res : List JStr) :
    parseFields (resourcesMark :: rs.map (fun r => dashMark ++ r)) fields res false =
      (fields, res ++ rs) := by
  rw [parseFields, if_pos rfl, parseFields_dashLines]

/-- Helper describing the effect of an optional-field block on the JS field
object: present values overwrite, absent values change nothing. -/
def optSet (fields : JStr → Option JStr) (k : JStr) : Option JStr → (JStr → Option JStr)
  | some v => setField fields k v
  | none => fields

theorem parseFields_optBlock (k : JStr) (o : Option JStr) (ls : List JStr)
    (fields : JStr → Option JStr) (res : List JStr)
    (hk : k ≠ []) (hcol : ∀ c ∈ k, (c != ':') = true)
    (ho : ∀ s, o = some s → ValidSeg s)
    (hne : ∀ v, fieldLine k v ≠ resourcesMark) :
    parseFields (optFieldLines k o ++ ls) fields res false =
      parseFields ls (optSet fields k o) res false := by
  cases o with
  | none => simp [optFieldLines, truthyS, optSet]
  | some v =>
    obtain ⟨hv1, hv2, hv3⟩ := ho v rfl
    rw [optFieldLines, if_pos (truthyS_some hv1)]
    simp only [Option.getD_some, List.cons_append, List.nil_append]
    rw [parseFields_fieldLine k v ls fields res hk hcol hv1 hv3 hv2 (hne v)]
    rfl

theorem setField_same (fields : JStr → Option JStr) (k v : JStr) :
    setField fields k v k = some v := by
  simp [setField]

theorem setField_ne (fields : JStr → Option JStr) (k v k' : JStr) (h : k' ≠ k) :
    setField fields k v k' = fields k' := by
  simp [setField, h]

theorem optSet_ne (fields : JStr → Option JStr) (k : JStr) (o : Option JStr)
    (k' : JStr) (h : k' ≠ k) : optSet fields k o k' = fields k' := by
  cases o with
  | none => rfl
  | some v => exact setField_ne fields k v k' h

theorem optSet_self (fields : JStr → Option JStr) (k : JStr) (o : Option JStr)
    (h : fields k = none) : optSet fields k o k = o := by
  cases o with
  | none => exact h
  | some v => exact setField_same fields k v

theorem scanForFields_stmtBlock (o : Option JStr) (v : JStr) (rest : List JStr)
    (ho : ∀ s, o = some s → s ≠ [] ∧ jsTrim s = s ∧ uriMark.isPrefixOf s = false) :
    scanForFields ((if truthyS o then [[], o.getD []] else []) ++
        [] :: fieldLine kURI v :: rest) none
      = (o, some (fieldLine kURI v :: rest)) := by
  cases o with
  | none =>
    rw [if_neg (by simp [truthyS]), List.nil_append, scanForFields_blank,
      scanForFields_stop (fieldLine kURI v) rest _ rfl]
  | some s =>
    obtain ⟨h1, h3, h4⟩ := ho s rfl
    rw [if_pos (truthyS_some h1)]
    simp only [Option.getD_some, List.cons_append, List.nil_append]
    rw [scanForFields_blank, scanForFields_statement s _ h1 h3 h4, scanForFields_blank,
      scanForFields_stop (fieldLine kURI v) rest _ rfl]

theorem parseFields_resBlock (res : Option (List JStr))
    (fields : JStr → Option JStr) (r0 : List JStr)
    (hres : ∀ rs, res = some rs → rs ≠ []) :
    parseFields (resLines res) fields r0 false = (fields, r0 ++ res.getD []) := by
  cases res with
  | none => simp [resLines, parseFields]
  | some rs =>
    have hpos : rs.length > 0 := List.length_pos.mpr (hres rs rfl)
    simp only [resLines, Option.getD_some]
    rw [if_pos hpos, parseFields_resources]

theorem resGetD_roundTrip (res : Option (List JStr))
    (hres : ∀ rs, res = some rs → rs ≠ []) :
    (if (res.getD []).length > 0 then some (res.getD []) else none) = res := by
  cases res with
  | none => simp
  | some rs => simp [List.length_pos.mpr (hres rs rfl)]

/-- The field object built by parsing the serialized field block, innermost
assignment first, mirroring the JS object after the parse loop. -/
def fieldsOf (uri ver chain non iat : JStr) (exp nbf rid : Option JStr) :
    JStr → Option JStr :=
  optSet (optSet (optSet
    (setField (setField (setField (setField (setField (fun _ => none)
      kURI uri) kVersion ver) kChainId chain) kNonce non) kIssuedAt iat)
    kExpirationTime exp) kNotBefore nbf) kRequestId rid

theorem fieldsOf_uri (uri ver chain non iat : JStr) (exp nbf rid : Option JStr) :
    fieldsOf uri ver chain non iat exp nbf rid kURI = some uri := by
  rw [fieldsOf, optSet_ne _ _ _ _ (by decide), optSet_ne _ _ _ _ (by decide),
    optSet_ne _ _ _ _ (by decide), setField_ne _ _ _ _ (by decide),
    setField_ne _ _ _ _ (by decide), setField_ne _ _ _ _ (by decide),
    setField_ne _ _ _ _ (by decide), setField_same]

theorem fieldsOf_version (uri ver chain non iat : JStr) (exp nbf rid : Option JStr) :
    fieldsOf uri ver chain non iat exp nbf rid kVersion = some ver := by
  rw [fieldsOf, optSet_ne _ _ _ _ (by decide), optSet_ne _ _ _ _ (by decide),
    optSet_ne _ _ _ _ (by decide), setField_ne _ _ _ _ (by decide),
    setField_ne _ _ _ _ (by decide), setField_ne _ _ _ _ (by decide), setField_same]

theorem fieldsOf_chainId (uri ver chain non iat : JStr) (exp nbf rid : Option JStr) :
    fieldsOf uri ver chain non iat exp nbf rid kChainId = some chain := by
  rw [fieldsOf, optSet_ne _ _ _ _ (by decide), optSet_ne _ _ _ _ (by decide),
    optSet_ne _ _ _ _ (by decide), setField_ne _ _ _ _ (by decide),
    setField_ne _ _ _ _ (by decide), setField_same]

theorem fieldsOf_nonce (uri ver chain non iat : JStr) (exp nbf rid : Option JStr) :
    fieldsOf uri ver chain non iat exp nbf rid kNonce = some non := by
  rw [fieldsOf, optSet_ne _ _ _ _ (by decide), optSet_ne _ _ _ _ (by decide),
    optSet_ne _ _ _ _ (by decide), setField_ne _ _ _ _ (by decide), setField_same]

theorem fieldsOf_issuedAt (uri ver chain non iat : JStr) (exp nbf rid : Option JStr) :
    fieldsOf uri ver chain non iat exp nbf rid kIssuedAt = some iat := by
  rw [fieldsOf, optSet_ne _ _ _ _ (by decide), optSet_ne _ _ _ _ (by decide),
    optSet_ne _ _ _ _ (by decide), setField_same]

theorem fieldsOf_expirationTime (uri ver chain non iat : JStr) (exp nbf rid : Option JStr) :
    fieldsOf uri ver chain non iat exp nbf rid kExpirationTime = exp := by
  rw [fieldsOf, optSet_ne _ _ _ _ (by decide), optSet_ne _ _ _ _ (by decide),
    optSet_self _ _ _ (by
      rw [setField_ne _ _ _ _ (by decide), setField_ne _ _ _ _ (by decide),
        setField_ne _ _ _ _ (by decide), setField_ne _ _ _ _ (by decide),
        setField_ne _ _ _ _ (by decide)])]

theorem fieldsOf_notBefore (uri ver chain non iat : JStr) (exp nbf rid : Option JStr) :
    fieldsOf uri ver chain non iat exp nbf rid kNotBefore = nbf := by
  rw [fieldsOf, optSet_ne _ _ _ _ (by decide),
    optSet_self _ _ _ (by
      rw [optSet_ne _ _ _ _ (by decide), setField_ne _ _ _ _ (by decide),
        setField_ne _ _ _ _ (by decide), setField_ne _ _ _ _ (by decide),
        setField_ne _ _ _ _ (by decide), setField_ne _ _ _ _ (by decide)])]

theorem fieldsOf_requestId (uri ver chain non iat : JStr) (exp nbf rid : Option JStr) :
    fieldsOf uri ver chain non iat exp nbf rid kRequestId = rid := by
  rw [fieldsOf, optSet_self _ _ _ (by
    rw [optSet_ne _ _ _ _ (by decide), optSet_ne _ _ _ _ (by decide),
      setField_ne _ _ _ _ (by decide), setField_ne _ _ _ _ (by decide),
      setField_ne _ _ _ _ (by decide), setField_ne _ _ _ _ (by decide),
      setField_ne _ _ _ _ (by decide)])]

theorem requiredKeys_ok (uri ver chain non iat : JStr) (exp nbf rid : Option JStr)
    (h1 : uri ≠ []) (h2 : ver ≠ []) (h3 : chain ≠ []) (h4 : non ≠ []) (h5 : iat ≠ []) :
    requiredKeys.find?
      (fun k => !truthyS (fieldsOf uri ver chain non iat exp nbf rid k)) = none := by
  simp [requiredKeys, List.find?, fieldsOf_uri, fieldsOf_version, fieldsOf_chainId,
    fieldsOf_nonce, fieldsOf_issuedAt, truthyS, isEmpty_false_of_ne_nil h1,
    isEmpty_false_of_ne_nil h2, isEmpty_false_of_ne_nil h3, isEmpty_false_of_ne_nil h4,
    isEmpty_false_of_ne_nil h5]

/-! ## Newline-freedom of serialized lines -/

theorem no_nl_fieldLine (k v : JStr) (hk : '\n' ∉ k) (hv : '\n' ∉ v) :
    '\n' ∉ fieldLine k v := by
  simp only [fieldLine, List.mem_append, List.mem_cons]
  push_neg
  exact ⟨hk, by decide, by decide, hv⟩

theorem no_nl_optFieldLines (k : JStr) (o : Option JStr) (hk : '\n' ∉ k)
    (ho : ∀ s, o = some s → ValidSeg s) :
    ∀ l ∈ optFieldLines k o, '\n' ∉ l := by
  cases o with
  | none => simp [optFieldLines, truthyS]
  | some v =>
    intro l hl
    obtain ⟨hv1, hv2, -⟩ := ho v rfl
    rw [optFieldLines, if_pos (truthyS_some hv1)] at hl
    simp only [Option.getD_some, List.mem_singleton] at hl
    subst hl
    exact no_nl_fieldLine k v hk (no_nl_of_noTerm hv2)

theorem serializeLines_ne_nil (m : SIWAMessage) : serializeLines m ≠ [] := by
  simp [serializeLines]

theorem serializeLines_no_newline (m : SIWAMessage) (h : ValidMessage m) :
    ∀ l ∈ serializeLines m, '\n' ∉ l := by
  obtain ⟨hdom1, hdom2, haddr1, haddr2, haddr3, hstmt, huri, hver, hchain, hnon, hiat,
    hexp, hnbf, hrid, hres⟩ := h
  intro l hl
  simp only [serializeLines, List.mem_append] at hl
  rcases hl with ((((((hl | hl) | hl) | hl) | hl) | hl) | hl) | hl
  · simp only [List.mem_cons, List.not_mem_nil, or_false] at hl
    rcases hl with rfl | rfl
    · simp only [List.mem_append]
      push_neg
      exact ⟨no_nl_of_noTerm hdom2, by decide⟩
    · exact haddr2
  · cases hs : m.statement with
    | none => rw [hs] at hl; simp [truthyS] at hl
    | some s =>
      rw [hs, if_pos (truthyS_some (hstmt s hs).1)] at hl
      simp only [Option.getD_some, List.mem_cons, List.not_mem_nil, or_false] at hl
      rcases hl with rfl | rfl
      · simp
      · exact (hstmt _ hs).2.1
  · simp only [List.mem_singleton] at hl
    subst hl
    simp
  · simp only [List.mem_cons, List.not_mem_nil, or_false] at hl
    rcases hl with rfl | rfl | rfl | rfl | rfl
    · exact no_nl_fieldLine _ _ (by decide) (no_nl_of_noTerm huri.2.1)
    · exact no_nl_fieldLine _ _ (by decide) (no_nl_of_noTerm hver.2.1)
    · exact no_nl_fieldLine _ _ (by decide) (no_nl_of_noTerm hchain.2.1)
    · exact no_nl_fieldLine _ _ (by decide) (no_nl_of_noTerm hnon.2.1)
    · exact no_nl_fieldLine _ _ (by decide) (no_nl_of_noTerm hiat.2.1)
  · exact no_nl_optFieldLines _ _ (by decide) hexp l hl
  · exact no_nl_optFieldLines _ _ (by decide) hnbf l hl
  · exact no_nl_optFieldLines _ _ (by decide) hrid l hl
  · cases hr : m.resources with
    | none => rw [hr] at hl; simp [resLines] at hl
    | some rs =>
      rw [hr] at hl
      obtain ⟨hrs1, hrs2⟩ := hres rs hr
      simp only [resLines] at hl
      rw [if_pos (List.length_pos.mpr hrs1)] at hl
      simp only [List.mem_cons] at hl
      rcases hl with rfl | hl
      · decide
      · obtain ⟨r, hr2, rfl⟩ := List.mem_map.mp hl
        intro hm
        rcases List.mem_append.mp hm with hm | hm
        · revert hm; decide
        · exact hrs2 r hr2 hm

theorem splitOn_serializeMessage (m : SIWAMessage) (h : ValidMessage m) :
    (serializeMessage m).splitOn '\n' = serializeLines m := by
  rw [serializeMessage]
  exact List.splitOn_intercalate _ '\n' (serializeLines_no_newline m h)
    (serializeLines_ne_nil m)

/-- C1: for every valid `SIWAMessage`, parsing the serialized text returns
the message field-for-field, and re-serializing any parse result of that
text reproduces the serialized text byte-for-byte. -/
theorem message_roundTrip (m : SIWAMessage) (h : ValidMessage m) :
    parseMessage (serializeMessage m) = Except.ok m ∧
    ∀ m', parseMessage (serializeMessage m) = Except.ok m' →
      serializeMessage m' = serializeMessage m := by
  have main : parseMessage (serializeMessage m) = Except.ok m := by
    rw [parseMessage, splitOn_serializeMessage m h]
    obtain ⟨hdom1, hdom2, haddr1, haddr2, haddr3, hstmt, huri, hver, hchain, hnon, hiat,
      hexp, hnbf, hrid, hres⟩ := h
    have hres' : ∀ rs, m.resources = some rs → rs ≠ [] := fun rs hrs => (hres rs hrs).1
    have hstmt' : ∀ s, m.statement = some s →
        s ≠ [] ∧ jsTrim s = s ∧ uriMark.isPrefixOf s = false :=
      fun s hs => ⟨(hstmt s hs).1, (hstmt s hs).2.2.1, (hstmt s hs).2.2.2⟩
    have hlines : serializeLines m =
        (m.domain ++ headerTail) :: m.address ::
        ((if truthyS m.statement then [[], m.statement.getD []] else []) ++
          [] :: fieldLine kURI m.uri :: fieldLine kVersion m.version ::
          fieldLine kChainId m.chainId :: fieldLine kNonce m.nonce ::
          fieldLine kIssuedAt m.issuedAt ::
          (optFieldLines kExpirationTime m.expirationTime ++
            (optFieldLines kNotBefore m.notBefore ++
              (optFieldLines kRequestId m.requestId ++ resLines m.resources)))) := by
      simp [serializeLines]
    rw [hlines]
    unfold parseLines
    rw [List.headD_cons, parseHeader_serialized m.domain hdom1 hdom2]
    simp only [List.drop_succ_cons, List.drop_zero, List.headD_cons, haddr3]
    rw [isEmpty_false_of_ne_nil haddr1]
    simp only [Bool.false_eq_true, if_false]
    rw [scanForFields_stmtBlock m.statement m.uri _ hstmt']
    simp only [Option.getD_some]
    rw [parseFields_fieldLine kURI m.uri _ _ _ (by decide) (by decide) huri.1 huri.2.2
        huri.2.1 (by simp [fieldLine, kURI, resourcesMark]),
      parseFields_fieldLine kVersion m.version _ _ _ (by decide) (by decide) hver.1 hver.2.2
        hver.2.1 (by simp [fieldLine, kVersion, resourcesMark]),
      parseFields_fieldLine kChainId m.chainId _ _ _ (by decide) (by decide) hchain.1 hchain.2.2
        hchain.2.1 (by simp [fieldLine, kChainId, resourcesMark]),
      parseFields_fieldLine kNonce m.nonce _ _ _ (by decide) (by decide) hnon.1 hnon.2.2
        hnon.2.1 (by simp [fieldLine, kNonce, resourcesMark]),
      parseFields_fieldLine kIssuedAt m.issuedAt _ _ _ (by decide) (by decide) hiat.1 hiat.2.2
        hiat.2.1 (by simp [fieldLine, kIssuedAt, resourcesMark]),
      parseFields_optBlock kExpirationTime m.expirationTime _ _ _ (by decide) (by decide) hexp
        (fun v => by simp [fieldLine, kExpirationTime, resourcesMark]),
      parseFields_optBlock kNotBefore m.notBefore _ _ _ (by decide) (by decide) hnbf
        (fun v => by simp [fieldLine, kNotBefore, resourcesMark]),
      parseFields_optBlock kRequestId m.requestId _ _ _ (by decide) (by decide) hrid
        (fun v => by simp [fieldLine, kRequestId, resourcesMark]),
      parseFields_resBlock m.resources _ _ hres']
    rw [show optSet (optSet (optSet
        (setField (setField (setField (setField (setField (fun _ => none)
          kURI m.uri) kVersion m.version) kChainId m.chainId) kNonce m.nonce)
          kIssuedAt m.issuedAt)
        kExpirationTime m.expirationTime) kNotBefore m.notBefore) kRequestId m.requestId
      = fieldsOf m.uri m.version m.chainId m.nonce m.issuedAt
          m.expirationTime m.notBefore m.requestId from rfl]
    rw [requiredKeys_ok m.uri m.version m.chainId m.nonce m.issuedAt
      m.expirationTime m.notBefore m.requestId huri.1 hver.1 hchain.1 hnon.1 hiat.1]
    simp only [fieldsOf_uri, fieldsOf_version, fieldsOf_chainId, fieldsOf_nonce,
      fieldsOf_issuedAt, fieldsOf_expirationTime, fieldsOf_notBefore, fieldsOf_requestId,
      Option.getD_some, List.nil_append]
    rw [resGetD_roundTrip m.resources hres']
  refine ⟨main, fun m' hm' => ?_⟩
  rw [main] at hm'
  injection hm' with h'
  rw [h']

/-- A concrete message exercising the statement, all three optional fields
and a two-element resources list. -/
def exampleMessage : SIWAMessage :=
  { domain := "example.com".toList
    address := "DRpbCBMxVnDK7maPM5tGv6MvB3v1sRMC86PZ8okm21hy".toList
    statement := some "Sign in to Example".toList
    uri := "https://example.com/auth".toList
    version := "1".toList
    chainId := "mainnet-beta".toList
    nonce := "abc123".toList
    issuedAt := "2026-02-01T12:00:00.000Z".toList
    expirationTime := some "2026-02-01T12:05:00.000Z".toList
    notBefore := some "2026-02-01T11:59:00.000Z".toList
    requestId := some "req-1".toList
    resources := some ["https://api.example.com".toList, "https://data.example.com".toList] }

theorem exampleMessage_valid : ValidMessage exampleMessage := by
  constructor <;> first
    | decide
    | (intro x hx; cases hx <;> decide)

/-- Witness for C1: the round-trip law applied to `exampleMessage`. -/
theorem message_roundTrip_witness :
    parseMessage (serializeMessage exampleMessage) = Except.ok exampleMessage :=
  (message_roundTrip exampleMessage exampleMessage_valid).1

/-! ## Nonce generator (`generateNonce`, packages/core/message.js) -/

/-- The 62-character alphabet used by `generateNonce`. -/
def nonceChars : JStr :=
  "ABCDEFGHIJKLMNOPQRSTUVWXYZabcdefghijklmnopqrstuvwxyz0123456789".toList

/-- `maxValid = 256 - (256 % chars.length)`; random bytes at or above this
are discarded to avoid modulo bias. -/
def maxValid : Nat := 256 - 256 % nonceChars.length

/-- `chars[byte % chars.length]`: map an accepted byte to its character. -/
def nonceChar (b : Nat) : Char :=
  nonceChars.get ⟨b % nonceChars.length, Nat.mod_lt b (by decide)⟩

/-- `generateNonce` from message.js with the random source made explicit:
`bytes` is the prefix of the `crypto.getRandomValues` stream actually
consumed, processed in order.  The JS while-loop draws batches of fresh
bytes until `length` characters are accepted; processing the stream one
byte at a time is equivalent because batches are consecutive stream bytes
and the inner guard only skips bytes once the result is already full. -/
def generateNonce (bytes : List Nat) (length : Nat) : JStr :=
  match bytes, length with
  | _, 0 => []
  | [], _ => []
  | b :: bs, Nat.succ k =>
    if b < maxValid then nonceChar b :: generateNonce bs k
    else generateNonce bs (k + 1)

theorem nonceChar_mem (b : Nat) : nonceChar b ∈ nonceChars :=
  List.get_mem nonceChars _ _

/-- C8: `generateNonce` is rejection sampling — its output is exactly the
first `n` stream bytes below `maxValid` (248), in draw order, mapped through
`byte % 62`; every output character is in the 62-symbol alphabet; and
whenever the stream supplies at least `n` acceptable bytes (the JS loop
keeps drawing until it does) the output length is exactly `n`. -/
theorem generateNonce_spec (bytes : List Nat) (n : Nat) :
    generateNonce bytes n =
      ((bytes.filter (fun b => decide (b < maxValid))).take n).map nonceChar ∧
    (∀ c ∈ generateNonce bytes n, c ∈ nonceChars) ∧
    (n ≤ (bytes.filter (fun b => decide (b < maxValid))).length →
      (generateNonce bytes n).length = n) := by
  have formula : ∀ (bs : List Nat) (k : Nat), generateNonce bs k =
      ((bs.filter (fun b => decide (b < maxValid))).take k).map nonceChar := by
    intro bs
    induction bs with
    | nil => intro k; cases k <;> rfl
    | cons b bs ih =>
      intro k
      cases k with
      | zero => rfl
      | succ k =>
        by_cases hb : b < maxValid
        · simp [generateNonce, hb, List.filter_cons, ih k]
        · simp [generateNonce, hb, List.filter_cons, ih (k + 1)]
  refine ⟨formula bytes n, ?_, ?_⟩
  · intro c hc
    rw [formula bytes n] at hc
    obtain ⟨b, -, rfl⟩ := List.mem_map.mp hc
    exact nonceChar_mem b
  · intro hlen
    rw [formula bytes n, List.length_map, List.length_take]
    omega

/-- Witness for C8 at a concrete stream: byte 250 is rejected (250 ≥ 248),
the remaining bytes map through mod 62 in order, and the length is exactly 4. -/
theorem generateNonce_spec_witness :
    4 ≤ (([0, 250, 61, 62, 247].filter (fun b => decide (b < maxValid))).length) ∧
    (generateNonce [0, 250, 61, 62, 247] 4).length = 4 :=
  ⟨by decide, (generateNonce_spec [0, 250, 61, 62, 247] 4).2.2 (by decide)⟩

/-! ## Timing validation (`validateTiming`, packages/core/message.js) -/

/-- The error cases of `validateTiming`, standing for the strings
"Message has expired" / "Message not yet valid" / "Message issued in the future". -/
inductive TimingError
  | expired
  | notYetValid
  | issuedInFuture
  deriving DecidableEq, Repr

/-- The `{valid, error?}` record returned by `validateTiming`. -/
structure TimingResult where
  valid : Bool
  error : Option TimingError
  deriving DecidableEq, Repr

/-- JS `new Date(s)` abstracted to an evaluation returning epoch
milliseconds; `none` models an invalid date, whose `NaN` comparisons are
all false. -/
abbrev DateEval := JStr → Option Int

/-- `now > d` on a possibly-invalid date (false on `NaN`). -/
def gtOpt (a : Int) : Option Int → Bool
  | some b => decide (a > b)
  | none => false

/-- `now < d` on a possibly-invalid date (false on `NaN`). -/
def ltOpt (a : Int) : Option Int → Bool
  | some b => decide (a < b)
  | none => false

/-- Fixed clock-skew tolerance: 5 minutes in milliseconds. -/
def maxSkew : Int := 5 * 60 * 1000

/-- The third rule of `validateTiming`:
`issuedAt.getTime() > now.getTime() + maxSkew` (false on an invalid date). -/
def issuedFuture (dv : DateEval) (now : Int) (iat : JStr) : Bool :=
  match dv iat with
  | some t => decide (t > now + maxSkew)
  | none => false

/-- `validateTiming` from message.js, with the clock and date parser passed
explicitly.  Each optional field is consulted only when truthy, and each
rule falls through to the next when its comparison does not fire. -/
def validateTiming (dv : DateEval) (now : Int) (m : SIWAMessage) : TimingResult :=
  if truthyS m.expirationTime && gtOpt now (dv (m.expirationTime.getD [])) then
    { valid := false, error := some .expired }
  else if truthyS m.notBefore && ltOpt now (dv (m.notBefore.getD [])) then
    { valid := false, error := some .notYetValid }
  else if issuedFuture dv now m.issuedAt then
    { valid := false, error := some .issuedInFuture }
  else { valid := true, error := none }

/-- C7: `validateTiming` evaluates its rules in order with the first failure
winning — expiry, then not-before, then future-issuance with the fixed
5-minute skew — and a message with neither expirationTime nor notBefore and
a non-future issuedAt is valid. -/
theorem validateTiming_spec (dv : DateEval) (now : Int) (m : SIWAMessage) :
    ((truthyS m.expirationTime && gtOpt now (dv (m.expirationTime.getD []))) = true →
      validateTiming dv now m = ⟨false, some .expired⟩) ∧
    ((truthyS m.expirationTime && gtOpt now (dv (m.expirationTime.getD []))) = false →
      (truthyS m.notBefore && ltOpt now (dv (m.notBefore.getD []))) = true →
      validateTiming dv now m = ⟨false, some .notYetValid⟩) ∧
    ((truthyS m.expirationTime && gtOpt now (dv (m.expirationTime.getD []))) = false →
      (truthyS m.notBefore && ltOpt now (dv (m.notBefore.getD []))) = false →
      issuedFuture dv now m.issuedAt = true →
      validateTiming dv now m = ⟨false, some .issuedInFuture⟩) ∧
    (truthyS m.expirationTime = false → truthyS m.notBefore = false →
      issuedFuture dv now m.issuedAt = false →
      validateTiming dv now m = ⟨true, none⟩) := by
  refine ⟨?_, ?_, ?_, ?_⟩
  · intro h1
    simp [validateTiming, h1]
  · intro h1 h2
    simp [validateTiming, h1, h2]
  · intro h1 h2 h3
    simp [validateTiming, h1, h2, h3]
  · intro h1 h2 h3
    simp [validateTiming, h1, h2, h3]

/-- Witness for C7: a message with no expirationTime/notBefore and a
non-future issuedAt validates as `{valid := true}`. -/
theorem validateTiming_spec_witness :
    validateTiming (fun _ => some 0) 0
      { exampleMessage with expirationTime := none, notBefore := none } =
      ⟨true, none⟩ :=
  (validateTiming_spec (fun _ => some 0) 0
    { exampleMessage with expirationTime := none, notBefore := none }).2.2.2
    (by decide) (by decide) (by decide)

/-! ## Signature verification (`verify`, packages/core/verify.js)

The external collaborators — the curve check inside `isValidSolanaAddress`
(`@solana/web3.js`), the base58 and base64 codecs (`bs58`, `Buffer`), the
Ed25519 primitive (`tweetnacl`), the clock and the date parser — are
gathered in a `CryptoApi` parameter; `verify` itself is the pure pipeline
around them. -/

/-- External collaborators of the core, at exactly the call sites where the
source leaves pure JS. -/
structure CryptoApi where
  /-- `isValidSolanaAddress`: `new PublicKey(address)` + `isOnCurve`. -/
  isValidSolanaAddress : JStr → Bool
  /-- `bs58.decode`, `none` when it throws. -/
  bs58Decode : JStr → Option (List Nat)
  /-- `Buffer.from(s, 'base64')`, `none` when it throws. -/
  base64Decode : JStr → Option (List Nat)
  /-- `nacl.sign.detached.verify` over the UTF-8 bytes of the message text. -/
  ed25519Verify : JStr → List Nat → List Nat → Bool
  /-- `new Date(string).getTime()`; `none` is an invalid date. -/
  dateEval : DateEval
  /-- `Date.now()` / `new Date()` in epoch milliseconds. -/
  now : Int
  /-- `new URL(uri)` succeeding (the URI check of `createMessage`). -/
  urlValid : JStr → Bool
  /-- `Date.prototype.toISOString`. -/
  toISOString : Int → JStr
  /-- `createHash('sha256').update(s).digest('base64url')` (server). -/
  sha256b64url : JStr → JStr

/-- The options record of `verify` (`domain?`, `nonce?`, `skipTimeCheck?`). -/
structure VerifyOptions where
  domain : Option JStr := none
  nonce : Option JStr := none
  skipTimeCheck : Bool := false

/-- The failure cases of `verify`, standing for its error strings. -/
inductive VerifyError
  | parseFailed (reason : String)
  | invalidPublicKey
  | addressMismatch
  | domainMismatch (expected got : JStr)
  | nonceMismatch
  | timing (e : Option TimingError)
  | invalidSignatureEncoding
  | invalidSignatureLength (n : Nat)
  | signatureVerificationFailed
  | verificationError
  deriving DecidableEq, Repr

/-- The `{success, message?, error?}` result of `verify`. -/
inductive VerifyResult
  | success (message : SIWAMessage)
  | failure (error : VerifyError)
  deriving DecidableEq, Repr

/-- Step 4 guard: `options?.domain && message.domain !== options.domain`. -/
def domainCheckFails (o : VerifyOptions) (m : SIWAMessage) : Bool :=
  truthyS o.domain && decide (m.domain ≠ o.domain.getD [])

/-- Step 5 guard: `options?.nonce && message.nonce !== options.nonce`. -/
def nonceCheckFails (o : VerifyOptions) (m : SIWAMessage) : Bool :=
  truthyS o.nonce && decide (m.nonce ≠ o.nonce.getD [])

/-- Step 6 guard: timing runs unless `options?.skipTimeCheck`, and fails
when `validateTiming` reports invalid. -/
def timingCheckFails (c : CryptoApi) (o : VerifyOptions) (m : SIWAMessage) : Bool :=
  !o.skipTimeCheck && !(validateTiming c.dateEval c.now m).valid

/-- Steps 7: decode the signature, base58 first, base64 on failure. -/
def decodeSignature (c : CryptoApi) (signature : JStr) : Option (List Nat) :=
  match c.bs58Decode signature with
  | some bs => some bs
  | none => c.base64Decode signature

/-- `verify` from packages/core/verify.js: the full check pipeline,
short-circuiting at the first failure, never throwing (the outer catch is
the `verificationError` case, reachable only if `bs58.decode(publicKey)`
throws after the key was accepted). -/
def verify (c : CryptoApi) (messageText signature publicKey : JStr)
    (options : VerifyOptions) : VerifyResult :=
  match parseMessage messageText with
  | .error e => .failure (.parseFailed e)
  | .ok message =>
    if c.isValidSolanaAddress publicKey = false then .failure .invalidPublicKey
    else if decide (message.address ≠ publicKey) then .failure .addressMismatch
    else if domainCheckFails options message then
      .failure (.domainMismatch (options.domain.getD []) message.domain)
    else if nonceCheckFails options message then .failure .nonceMismatch
    else if timingCheckFails c options message then
      .failure (.timing (validateTiming c.dateEval c.now message).error)
    else
      match decodeSignature c signature with
      | none => .failure .invalidSignatureEncoding
      | some signatureBytes =>
        if decide (signatureBytes.length ≠ 64) then
          .failure (.invalidSignatureLength signatureBytes.length)
        else
          match c.bs58Decode publicKey with
          | none => .failure .verificationError
          | some publicKeyBytes =>
            if c.ed25519Verify messageText signatureBytes publicKeyBytes then
              .success message
            else .failure .signatureVerificationFailed

/-- C5: `verify` is total — every input yields `success` or a structured
`failure` — and its checks short-circuit in the source order: message parse,
public-key validity, address equality, optional domain equality, optional
nonce equality, timing unless `skipTimeCheck`, signature decode, length
check, Ed25519 verification; success returns the parsed message. -/
theorem verify_spec (c : CryptoApi) (mt sig pk : JStr) (o : VerifyOptions) :
    ((∃ m, verify c mt sig pk o = .success m) ∨
      (∃ e, verify c mt sig pk o = .failure e)) ∧
    (∀ e, parseMessage mt = .error e →
      verify c mt sig pk o = .failure (.parseFailed e)) ∧
    (∀ m, parseMessage mt = .ok m → c.isValidSolanaAddress pk = false →
      verify c mt sig pk o = .failure .invalidPublicKey) ∧
    (∀ m, parseMessage mt = .ok m → c.isValidSolanaAddress pk = true →
      m.address ≠ pk → verify c mt sig pk o = .failure .addressMismatch) ∧
    (∀ m, parseMessage mt = .ok m → c.isValidSolanaAddress pk = true →
      m.address = pk → domainCheckFails o m = true →
      verify c mt sig pk o = .failure (.domainMismatch (o.domain.getD []) m.domain)) ∧
    (∀ m, parseMessage mt = .ok m → c.isValidSolanaAddress pk = true →
      m.address = pk → domainCheckFails o m = false → nonceCheckFails o m = true →
      verify c mt sig pk o = .failure .nonceMismatch) ∧
    (∀ m, parseMessage mt = .ok m → c.isValidSolanaAddress pk = true →
      m.address = pk → domainCheckFails o m = false → nonceCheckFails o m = false →
      timingCheckFails c o m = true →
      verify c mt sig pk o =
        .failure (.timing (validateTiming c.dateEval c.now m).error)) ∧
    (∀ m, parseMessage mt = .ok m → c.isValidSolanaAddress pk = true →
      m.address = pk → domainCheckFails o m = false → nonceCheckFails o m = false →
      timingCheckFails c o m = false → decodeSignature c sig = none →
      verify c mt sig pk o = .failure .invalidSignatureEncoding) ∧
    (∀ m bs, parseMessage mt = .ok m → c.isValidSolanaAddress pk = true →
      m.address = pk → domainCheckFails o m = false → nonceCheckFails o m = false →
      timingCheckFails c o m = false → decodeSignature c sig = some bs →
      bs.length ≠ 64 →
      verify c mt sig pk o = .failure (.invalidSignatureLength bs.length)) ∧
    (∀ m bs pkb, parseMessage mt = .ok m → c.isValidSolanaAddress pk = true →
      m.address = pk → domainCheckFails o m = false → nonceCheckFails o m = false →
      timingCheckFails c o m = false → decodeSignature c sig = some bs →
      bs.length = 64 → c.bs58Decode pk = some pkb →
      c.ed25519Verify mt bs pkb = true →
      verify c mt sig pk o = .success m) := by
  refine ⟨?_, ?_, ?_, ?_, ?_, ?_, ?_, ?_, ?_, ?_⟩
  · cases hres : verify c mt sig pk o with
    | success m => exact Or.inl ⟨m, rfl⟩
    | failure e => exact Or.inr ⟨e, rfl⟩
  · intro e hp
    simp [verify, hp]
  · intro m hp hk
    simp [verify, hp, hk]
  · intro m hp hk ha
    simp [verify, hp, hk, ha]
  · intro m hp hk ha hd
    simp [verify, hp, hk, ha, hd]
  · intro m hp hk ha hd hn
    simp [verify, hp, hk, ha, hd, hn]
  · intro m hp hk ha hd hn ht
    simp [verify, hp, hk, ha, hd, hn, ht]
  · intro m hp hk ha hd hn ht hs
    simp [verify, hp, hk, ha, hd, hn, ht, hs]
  · intro m bs hp hk ha hd hn ht hs hl
    simp [verify, hp, hk, ha, hd, hn, ht, hs, hl]
  · intro m bs pkb hp hk ha hd hn ht hs hl hpk hv
    simp [verify, hp, hk, ha, hd, hn, ht, hs, hl, hpk, hv]

/-- A concrete `CryptoApi` for witnesses: one recognized signature string,
one recognized address, Ed25519 always accepting. -/
def cryptoApiEx : CryptoApi :=
  { isValidSolanaAddress := fun a =>
      decide (a = "DRpbCBMxVnDK7maPM5tGv6MvB3v1sRMC86PZ8okm21hy".toList)
    bs58Decode := fun s =>
      if s = "SIG".toList then some (List.replicate 64 0)
      else if s = "DRpbCBMxVnDK7maPM5tGv6MvB3v1sRMC86PZ8okm21hy".toList then
        some (List.replicate 32 1)
      else none
    base64Decode := fun _ => none
    ed25519Verify := fun _ _ _ => true
    dateEval := fun _ => some 0
    now := 0
    urlValid := fun _ => true
    toISOString := fun _ => "1970-01-01T00:00:00.000Z".toList
    sha256b64url := fun _ => "hash".toList }

/-- Witness for C5: with every check passing, `verify` succeeds and attaches
the parsed message. -/
theorem verify_spec_witness :
    verify cryptoApiEx (serializeMessage exampleMessage) "SIG".toList
      exampleMessage.address { skipTimeCheck := true } = .success exampleMessage :=
  (verify_spec cryptoApiEx (serializeMessage exampleMessage) "SIG".toList
      exampleMessage.address { skipTimeCheck := true }).2.2.2.2.2.2.2.2.2
    exampleMessage (List.replicate 64 0) (List.replicate 32 1)
    (by decide) (by decide) (by decide) (by decide) (by decide) (by decide)
    (by decide) (by decide) (by decide) (by decide)

/-- C6: the signature string is decoded by attempting base58 first and, on
failure, base64; with the checks before decoding passed, `verify` returns
the encoding error exactly when both decodings fail, and a successful decode
of any length other than 64 yields the length error carrying that length. -/
theorem verify_signatureDecoding (c : CryptoApi) (mt sig pk : JStr) (o : VerifyOptions) :
    (∀ bs, c.bs58Decode sig = some bs → decodeSignature c sig = some bs) ∧
    (c.bs58Decode sig = none → decodeSignature c sig = c.base64Decode sig) ∧
    (∀ m, parseMessage mt = .ok m → c.isValidSolanaAddress pk = true →
      m.address = pk → domainCheckFails o m = false → nonceCheckFails o m = false →
      timingCheckFails c o m = false →
      (verify c mt sig pk o = .failure .invalidSignatureEncoding ↔
        c.bs58Decode sig = none ∧ c.base64Decode sig = none)) ∧
    (∀ m bs, parseMessage mt = .ok m → c.isValidSolanaAddress pk = true →
      m.address = pk → domainCheckFails o m = false → nonceCheckFails o m = false →
      timingCheckFails c o m = false → decodeSignature c sig = some bs →
      bs.length ≠ 64 →
      verify c mt sig pk o = .failure (.invalidSignatureLength bs.length)) := by
  refine ⟨?_, ?_, ?_, ?_⟩
  · intro bs hb
    simp [decodeSignature, hb]
  · intro hb
    simp [decodeSignature, hb]
  · intro m hp hk ha hd hn ht
    constructor
    · intro h
      cases hds : decodeSignature c sig with
      | none =>
        cases hb : c.bs58Decode sig with
        | some bs =>
          simp only [decodeSignature, hb] at hds
          exact absurd hds (by simp)
        | none =>
          simp only [decodeSignature, hb] at hds
          exact ⟨rfl, hds⟩
      | some bs =>
        rw [verify, hp] at h
        simp only [hk, ha, hd, hn, ht, hds] at h
        repeat' split at h
        all_goals simp_all
    · intro ⟨hb, h64⟩
      have hds : decodeSignature c sig = none := by simp [decodeSignature, hb, h64]
      simp [verify, hp, hk, ha, hd, hn, ht, hds]
  · intro m bs hp hk ha hd hn ht hds hl
    simp [verify, hp, hk, ha, hd, hn, ht, hds, hl]

/-- Witness for C6: a signature string neither base58- nor base64-decodable
makes `verify` fail with the encoding error. -/
theorem verify_signatureDecoding_witness :
    verify cryptoApiEx (serializeMessage exampleMessage) "%%%".toList
      exampleMessage.address { skipTimeCheck := true } =
      .failure .invalidSignatureEncoding :=
  ((verify_signatureDecoding cryptoApiEx (serializeMessage exampleMessage)
      "%%%".toList exampleMessage.address { skipTimeCheck := true }).2.2.1
    exampleMessage (by decide) (by decide) (by decide) (by decide) (by decide)
    (by decide)).mpr ⟨by decide, by decide⟩

/-- C10: an empty string passed as `options.domain` or `options.nonce` is
falsy, so the corresponding equality check is skipped entirely: `verify`
behaves identically to the call without that option, and the corresponding
mismatch error can never be produced. -/
theorem verify_emptyOptionDisables (c : CryptoApi) (mt sig pk : JStr) :
    (∀ no st, verify c mt sig pk ⟨some [], no, st⟩ =
      verify c mt sig pk ⟨none, no, st⟩) ∧
    (∀ no st e g, verify c mt sig pk ⟨some [], no, st⟩ ≠
      .failure (.domainMismatch e g)) ∧
    (∀ dm st, verify c mt sig pk ⟨dm, some [], st⟩ =
      verify c mt sig pk ⟨dm, none, st⟩) ∧
    (∀ dm st, verify c mt sig pk ⟨dm, some [], st⟩ ≠ .failure .nonceMismatch) := by
  refine ⟨?_, ?_, ?_, ?_⟩
  · intro no st
    cases hp : parseMessage mt with
    | error e => simp [verify, hp]
    | ok m =>
      simp [verify, hp, domainCheckFails, nonceCheckFails, timingCheckFails, truthyS]
  · intro no st e g h
    cases hp : parseMessage mt with
    | error er => simp [verify, hp] at h
    | ok m =>
      rw [verify, hp] at h
      simp only [] at h
      repeat' split at h
      all_goals simp_all [domainCheckFails, truthyS]
  · intro dm st
    cases hp : parseMessage mt with
    | error e => simp [verify, hp]
    | ok m =>
      simp [verify, hp, domainCheckFails, nonceCheckFails, timingCheckFails, truthyS]
  · intro dm st h
    cases hp : parseMessage mt with
    | error er => simp [verify, hp] at h
    | ok m =>
      rw [verify, hp] at h
      simp only [] at h
      repeat' split at h
      all_goals simp_all [nonceCheckFails, truthyS]

/-! ## Server stores (packages/server/dist/index.js) -/

/-- `NonceData` (`{pubkey, message, expiresAt}`), the pending-challenge
record keyed by nonce. -/
structure NonceData where
  pubkey : JStr
  message : JStr
  expiresAt : Int
  deriving DecidableEq, Repr

/-- `SessionData` (`{address, expiresAt, scopes, message}`). -/
structure SessionData where
  address : JStr
  expiresAt : Int
  scopes : Option (List JStr)
  message : SIWAMessage
  deriving DecidableEq, Repr

/-- The backing `Map` of `InMemoryNonceStore`. -/
abbrev NonceMap := JStr → Option NonceData

/-- The backing `Map` of `InMemorySessionStore`. -/
abbrev SessionMap := JStr → Option SessionData

/-- `InMemoryNonceStore.set`: store the record.  The `setTimeout` deletion
it schedules is a separate asynchronous event that runs later (modelled as
a later `nonceDelete`), not part of the synchronous `set`. -/
def nonceSet (st : NonceMap) (nonce : JStr) (data : NonceData) : NonceMap :=
  fun k => if k = nonce then some data else st k

/-- `InMemoryNonceStore.get`: a bare map lookup — the code performs no
read-time comparison of `expiresAt` against the clock. -/
def nonceGet (st : NonceMap) (nonce : JStr) : Option NonceData :=
  st nonce

/-- `InMemoryNonceStore.delete` (also the body of the scheduled timer). -/
def nonceDelete (st : NonceMap) (nonce : JStr) : NonceMap :=
  fun k => if k = nonce then none else st k

/-- `InMemorySessionStore.set`. -/
def sessionSet (st : SessionMap) (token : JStr) (s : SessionData) : SessionMap :=
  fun k => if k = token then some s else st k

/-- `InMemorySessionStore.get`: unlike the nonce store, it checks
`session.expiresAt < new Date()` at read time, deleting and returning
`null` for an expired record. -/
def sessionGet (st : SessionMap) (token : JStr) (now : Int) :
    Option SessionData × SessionMap :=
  match st token with
  | some session =>
    if session.expiresAt < now then (none, fun k => if k = token then none else st k)
    else (some session, st)
  | none => (none, st)

/-- `InMemorySessionStore.delete`. -/
def sessionDelete (st : SessionMap) (token : JStr) : SessionMap :=
  fun k => if k = token then none else st k

/-! ## Redis-backed stores (packages/server/src/redis.ts)

The Redis keyspace is idealized: each key holds its payload together with
the absolute deadline implied by the `SETEX` TTL, and `GET` returns nothing
once the deadline has passed (Redis reclaims expired keys no later than
this).  The JSON encode/decode of the payload is modelled as the identity
on the record. -/

/-- A Redis-backed nonce keyspace: payload plus TTL deadline (epoch ms). -/
abbrev RedisNonceMap := JStr → Option (NonceData × Int)

/-- `RedisNonceStore.set`: `ttlSeconds = Math.floor((expiresAt - now)/1000)`;
records with non-positive TTL are not stored; otherwise `SETEX` gives the
key a deadline `now + ttlSeconds` seconds from now. -/
def redisNonceSet (db : RedisNonceMap) (nonce : JStr) (data : NonceData)
    (now : Int) : RedisNonceMap :=
  let ttlSeconds := (data.expiresAt - now) / 1000
  if ttlSeconds ≤ 0 then db
  else fun k => if k = nonce then some (data, now + ttlSeconds * 1000) else db k

/-- `RedisNonceStore.get` at time `now`: Redis returns nothing at or after
the key's deadline; the payload itself is not compared against the clock. -/
def redisNonceGet (db : RedisNonceMap) (nonce : JStr) (now : Int) :
    Option NonceData :=
  match db nonce with
  | some (d, deadline) => if now < deadline then some d else none
  | none => none

/-- The TTL discipline `SETEX` maintains: every stored deadline is at or
before the payload's own `expiresAt` (the floored TTL never overshoots). -/
def WellTtl (db : RedisNonceMap) : Prop :=
  ∀ k d deadline, db k = some (d, deadline) → deadline ≤ d.expiresAt

/-! ## The SIWA server (packages/server/dist/index.js) -/

/-- The configuration held by a `SIWAServer` instance. -/
structure ServerConfig where
  domain : JStr
  uri : JStr
  statement : Option JStr := none
  resources : Option (List JStr) := none
  challengeExpirationMinutes : Int := 5
  sessionExpirationMinutes : Int := 60

/-- The two stores a `SIWAServer` owns. -/
structure ServerState where
  nonces : NonceMap
  sessions : SessionMap

/-- The errors thrown by `createMessage`, `createChallenge` and
`verifySignature`, standing for their message strings ('Invalid domain
format', 'Invalid Solana public key', 'Invalid or expired nonce',
'Public key mismatch', ...). -/
inductive ServerError
  | invalidDomain
  | invalidURI
  | invalidAddress
  | invalidPublicKey
  | verificationFailed (e : VerifyError)
  | nonceInvalidOrExpired
  | publicKeyMismatch
  deriving DecidableEq, Repr

/-- `SIWAChallenge` (`{challengeId, message, messageHash, expiresAt}`). -/
structure Challenge where
  challengeId : JStr
  message : JStr
  messageHash : JStr
  expiresAt : JStr
  deriving DecidableEq, Repr

/-- `SIWASession` (`{token, address, expiresAt, scopes}`). -/
structure Session where
  token : JStr
  address : JStr
  expiresAt : JStr
  scopes : Option (List JStr)
  deriving DecidableEq, Repr

def isAlnum (c : Char) : Bool :=
  ('a' ≤ c && c ≤ 'z') || ('A' ≤ c && c ≤ 'Z') || ('0' ≤ c && c ≤ '9')

def isDomainChar (c : Char) : Bool :=
  isAlnum c || c == '.' || c == '-'

/-- `isValidDomain` from message.js: non-empty, at most 253 characters,
the literal `localhost`, or matching
`[a-zA-Z0-9][a-zA-Z0-9.-]*[a-zA-Z0-9]` (which forces length ≥ 2). -/
def isValidDomain (domain : JStr) : Bool :=
  if domain.isEmpty || domain.length > 253 then false
  else if domain = "localhost".toList then true
  else
    match domain with
    | [] => false
    | c :: rest =>
      isAlnum c && !rest.isEmpty && isAlnum (rest.getLastD ' ') &&
        rest.dropLast.all isDomainChar

def isBase58Char (c : Char) : Bool :=
  ('1' ≤ c && c ≤ '9') || ('A' ≤ c && c ≤ 'H') || ('J' ≤ c && c ≤ 'N') ||
  ('P' ≤ c && c ≤ 'Z') || ('a' ≤ c && c ≤ 'k') || ('m' ≤ c && c ≤ 'z')

/-- The syntactic `isValidSolanaAddress` local to message.js (32–44 chars of
the base58 alphabet) — distinct from the curve-checking one in verify.js. -/
def isBase58Address (address : JStr) : Bool :=
  !address.isEmpty && 32 ≤ address.length && address.length ≤ 44 &&
    address.all isBase58Char

/-- `createMessage` from message.js: validate domain, URI (external URL
parser) and address, then fill defaults (`version "1"`,
`chainId "mainnet-beta"`, `issuedAt = now`, `expirationTime = now +
expirationMinutes` with default 5).  The nonce is always passed by the
callers modelled here (`createChallenge` passes its fresh nonce). -/
def createMessage (c : CryptoApi) (now : Int) (domain address uri : JStr)
    (chainId statement : Option JStr) (nonce : JStr)
    (expirationMinutes : Option Int) (resources : Option (List JStr))
    (requestId : Option JStr) : Except ServerError SIWAMessage :=
  if isValidDomain domain = false then .error .invalidDomain
  else if c.urlValid uri = false then .error .invalidURI
  else if isBase58Address address = false then .error .invalidAddress
  else
    .ok { domain := domain
          address := address
          uri := uri
          version := "1".toList
          chainId := chainId.getD "mainnet-beta".toList
          nonce := nonce
          issuedAt := c.toISOString now
          expirationTime :=
            some (c.toISOString (now + (expirationMinutes.getD 5) * 60 * 1000))
          notBefore := none
          statement := statement
          resources := resources
          requestId := requestId }

/-- `SIWAServer.createChallenge`: validate the pubkey (curve check), build
and serialize a message carrying the fresh 32-character `nonce` (randomness
is external, so the nonce is a parameter), store the `NonceRecord` keyed by
the nonce, and return the challenge with its derived id and hash. -/
def createChallenge (cfg : ServerConfig) (c : CryptoApi) (st : ServerState)
    (pubkey nonce : JStr) (now : Int) :
    Except ServerError (Challenge × ServerState) :=
  if c.isValidSolanaAddress pubkey = false then .error .invalidPublicKey
  else
    match createMessage c now cfg.domain pubkey cfg.uri none cfg.statement nonce
        (some cfg.challengeExpirationMinutes) cfg.resources none with
    | .error e => .error e
    | .ok message =>
      let messageText := serializeMessage message
      let expiresAt := now + cfg.challengeExpirationMinutes * 60 * 1000
      .ok ({ challengeId := "ch_".toList ++ (c.sha256b64url nonce).take 16
             message := messageText
             messageHash := c.sha256b64url messageText
             expiresAt := c.toISOString expiresAt },
           { st with nonces := nonceSet st.nonces nonce ⟨pubkey, messageText, expiresAt⟩ })

/-- `SIWAServer.verifySignature`: run `verify` with the server's configured
domain (time checks active), look up the nonce record with a plain `get`,
reject missing records ('Invalid or expired nonce') and pubkey mismatches,
then `delete` the nonce, mint a session under the supplied fresh `token`,
and return it. -/
def verifySignature (cfg : ServerConfig) (c : CryptoApi) (st : ServerState)
    (message pubkey signature token : JStr) :
    Except ServerError (Session × ServerState) :=
  match verify c message signature pubkey ⟨some cfg.domain, none, false⟩ with
  | .failure e => .error (.verificationFailed e)
  | .success siwaMessage =>
    match nonceGet st.nonces siwaMessage.nonce with
    | none => .error .nonceInvalidOrExpired
    | some nonceData =>
      if nonceData.pubkey ≠ pubkey then .error .publicKeyMismatch
      else
        let expiresAt := c.now + cfg.sessionExpirationMinutes * 60 * 1000
        .ok ({ token := token
               address := pubkey
               expiresAt := c.toISOString expiresAt
               scopes := siwaMessage.resources },
             { nonces := nonceDelete st.nonces siwaMessage.nonce
               sessions := sessionSet st.sessions token
                 ⟨pubkey, expiresAt, siwaMessage.resources, siwaMessage⟩ })

/-- C2: one-time nonce consumption under sequential replay.
`createChallenge` stores the nonce record; a successful `verifySignature`
for a message carrying nonce N deletes N's record, so the immediate replay
of the same message/pubkey/signature fails with `nonceInvalidOrExpired`
('Invalid or expired nonce'); no `verifySignature` call ever re-creates a
nonce record; and on any state with N's record absent, the same
presentation keeps failing with `nonceInvalidOrExpired`. -/
theorem verifySignature_replayProtection (cfg : ServerConfig) (c : CryptoApi) :
    (∀ st pk nonce now ch st₁,
      createChallenge cfg c st pk nonce now = .ok (ch, st₁) →
      st₁.nonces nonce =
        some ⟨pk, ch.message, now + cfg.challengeExpirationMinutes * 60 * 1000⟩) ∧
    (∀ st msg pk sig tok sess st',
      verifySignature cfg c st msg pk sig tok = .ok (sess, st') →
      ∃ m, verify c msg sig pk ⟨some cfg.domain, none, false⟩ = .success m ∧
        st'.nonces m.nonce = none ∧
        ∀ tok₂, verifySignature cfg c st' msg pk sig tok₂ =
          .error .nonceInvalidOrExpired) ∧
    (∀ st msg pk sig tok sess st' N,
      st.nonces N = none →
      verifySignature cfg c st msg pk sig tok = .ok (sess, st') →
      st'.nonces N = none) ∧
    (∀ st msg pk sig tok m,
      verify c msg sig pk ⟨some cfg.domain, none, false⟩ = .success m →
      st.nonces m.nonce = none →
      verifySignature cfg c st msg pk sig tok = .error .nonceInvalidOrExpired) := by
  have hfail : ∀ st msg pk sig tok m,
      verify c msg sig pk ⟨some cfg.domain, none, false⟩ = .success m →
      st.nonces m.nonce = none →
      verifySignature cfg c st msg pk sig tok = .error .nonceInvalidOrExpired := by
    intro st msg pk sig tok m hv hN
    rw [verifySignature, hv]
    simp only []
    rw [show nonceGet st.nonces m.nonce = none from hN]
  refine ⟨?_, ?_, ?_, hfail⟩
  · intro st pk nonce now ch st₁ h
    rw [createChallenge] at h
    by_cases hk : c.isValidSolanaAddress pk = false
    · rw [if_pos hk] at h
      exact absurd h (by simp)
    · rw [if_neg hk] at h
      cases hm : createMessage c now cfg.domain pk cfg.uri none cfg.statement nonce
          (some cfg.challengeExpirationMinutes) cfg.resources none with
      | error e => rw [hm] at h; exact absurd h (by simp)
      | ok message =>
        rw [hm] at h
        simp only [Except.ok.injEq, Prod.mk.injEq] at h
        obtain ⟨hch, hst⟩ := h
        subst hst
        rw [← hch]
        simp [nonceSet]
  · intro st msg pk sig tok sess st' h
    rw [verifySignature] at h
    cases hv : verify c msg sig pk ⟨some cfg.domain, none, false⟩ with
    | failure e => rw [hv] at h; exact absurd h (by simp)
    | success m =>
      rw [hv] at h
      simp only [] at h
      cases hn : nonceGet st.nonces m.nonce with
      | none => rw [hn] at h; exact absurd h (by simp)
      | some nd =>
        rw [hn] at h
        simp only [] at h
        by_cases hpk : nd.pubkey ≠ pk
        · rw [if_pos hpk] at h; exact absurd h (by simp)
        · rw [if_neg hpk] at h
          simp only [Except.ok.injEq, Prod.mk.injEq] at h
          obtain ⟨hsess, hst⟩ := h
          subst hst
          have hdel : nonceDelete st.nonces m.nonce m.nonce = none := by
            simp [nonceDelete]
          refine ⟨m, rfl, hdel, ?_⟩
          intro tok₂
          exact hfail _ msg pk sig tok₂ m hv hdel
  · intro st msg pk sig tok sess st' N hN h
    rw [verifySignature] at h
    cases hv : verify c msg sig pk ⟨some cfg.domain, none, false⟩ with
    | failure e => rw [hv] at h; exact absurd h (by simp)
    | success m =>
      rw [hv] at h
      simp only [] at h
      cases hn : nonceGet st.nonces m.nonce with
      | none => rw [hn] at h; exact absurd h (by simp)
      | some nd =>
        rw [hn] at h
        simp only [] at h
        by_cases hpk : nd.pubkey ≠ pk
        · rw [if_pos hpk] at h; exact absurd h (by simp)
        · rw [if_neg hpk] at h
          simp only [Except.ok.injEq, Prod.mk.injEq] at h
          obtain ⟨hsess, hst⟩ := h
          subst hst
          by_cases hNn : N = m.nonce
          · subst hNn; simp [nonceDelete]
          · simp [nonceDelete, hNn, hN]

/-- Witness for C2: a verified message whose nonce record is absent fails
with `nonceInvalidOrExpired`. -/
theorem verifySignature_replayProtection_witness :
    verifySignature
      ⟨"example.com".toList, "https://example.com/auth".toList, none, none, 5, 60⟩
      cryptoApiEx ⟨fun _ => none, fun _ => none⟩
      (serializeMessage exampleMessage) exampleMessage.address "SIG".toList
      "tok".toList = .error .nonceInvalidOrExpired :=
  (verifySignature_replayProtection
      ⟨"example.com".toList, "https://example.com/auth".toList, none, none, 5, 60⟩
      cryptoApiEx).2.2.2 ⟨fun _ => none, fun _ => none⟩ _ _ _ _ exampleMessage
    (by decide) rfl

/-! ## The nonce-consumption race (C3) -/

/-- Two concurrent nonce consumptions as the code performs them — a `get`
step, then (if a record was found) a `delete` step, with an await point
between the two store calls — under the schedule A.get, B.get, A.delete,
B.delete.  `SIWAServer.verifySignature` consumes via separate `get` and
`delete`, and `RedisNonceStore.deleteAndGet` has the same two-step shape:
its atomic Lua script is defined but never executed ("fall back to
get+delete (small race window)").  Returns what each consumer observed and
the final store. -/
def raceBothGetFirst (st : NonceMap) (n : JStr) :
    Option NonceData × Option NonceData × NonceMap :=
  let aGot := nonceGet st n
  let bGot := nonceGet st n
  let st1 := if aGot.isSome then nonceDelete st n else st
  let st2 := if bGot.isSome then nonceDelete st1 n else st1
  (aGot, bGot, st2)

/-- C3 (code bug): under the both-GETs-first schedule permitted by the
non-atomic get+delete consume, both racing verifications observe the nonce
record, so both pass the replay check and both succeed — at-most-once
consumption is violated. -/
theorem race_bothConsumeSameNonce :
    (raceBothGetFirst
        (nonceSet (fun _ => none) "n1".toList ⟨"pk".toList, "m".toList, 1000⟩)
        "n1".toList).1 = some ⟨"pk".toList, "m".toList, 1000⟩ ∧
    (raceBothGetFirst
        (nonceSet (fun _ => none) "n1".toList ⟨"pk".toList, "m".toList, 1000⟩)
        "n1".toList).2.1 = some ⟨"pk".toList, "m".toList, 1000⟩ := by decide

/-! ## Read-time expiry of the stores (C4) -/

/-- C4 counterexample: `InMemoryNonceStore.get` returns a record whose
`expiresAt` (0) already lies in the past at read time (1) — the nonce
store's `get` has no read-time expiry check, only the separately scheduled
timer deletion. -/
theorem inMemoryNonceStore_get_expired :
    nonceGet (nonceSet (fun _ => none) "n1".toList ⟨"pk".toList, "m".toList, 0⟩)
        "n1".toList = some ⟨"pk".toList, "m".toList, 0⟩ ∧
    (⟨"pk".toList, "m".toList, 0⟩ : NonceData).expiresAt < 1 := by decide

/-- C4 amended: read-time expiry holds for the in-memory session store
(expired records read back as absent) and for the Redis-backed stores under
the SETEX TTL discipline (the floored TTL deadline never outlives the
record's `expiresAt`, so an expired record is unreachable), but not for the
in-memory nonce store, whose `get` returns whatever the map holds. -/
theorem store_readTimeExpiry (st : SessionMap) (token : JStr) (now : Int) :
    (∀ s, (sessionGet st token now).1 = some s → ¬ s.expiresAt < now) ∧
    (∀ db : RedisNonceMap, WellTtl db →
      ∀ n d t, WellTtl (redisNonceSet db n d t)) ∧
    (∀ db : RedisNonceMap, WellTtl db →
      ∀ n t r, redisNonceGet db n t = some r → ¬ r.expiresAt < t) ∧
    (∀ (nst : NonceMap) (n : JStr) (r : NonceData), nst n = some r →
      nonceGet nst n = some r) := by
  refine ⟨?_, ?_, ?_, ?_⟩
  · intro s h
    cases hs : st token with
    | none => simp [sessionGet, hs] at h
    | some session =>
      rw [sessionGet, hs] at h
      simp only [] at h
      by_cases he : session.expiresAt < now
      · rw [if_pos he] at h
        simp at h
      · rw [if_neg he] at h
        simp only [Option.some.injEq] at h
        subst h
        exact he
  · intro db hdb n d t
    rw [redisNonceSet]
    by_cases ht : (d.expiresAt - t) / 1000 ≤ 0
    · rw [if_pos ht]
      exact hdb
    · rw [if_neg ht]
      intro k d' deadline hk
      simp only [] at hk
      by_cases hkn : k = n
      · rw [if_pos hkn] at hk
        simp only [Option.some.injEq, Prod.mk.injEq] at hk
        obtain ⟨rfl, rfl⟩ := hk
        have hmul : (d.expiresAt - t) / 1000 * 1000 ≤ d.expiresAt - t :=
          Int.ediv_mul_le _ (by norm_num)
        omega
      · rw [if_neg hkn] at hk
        exact hdb k d' deadline hk
  · intro db hdb n t r h
    cases hk : db n with
    | none => simp [redisNonceGet, hk] at h
    | some p =>
      obtain ⟨d, deadline⟩ := p
      rw [redisNonceGet, hk] at h
      simp only [] at h
      by_cases htl : t < deadline
      · rw [if_pos htl] at h
        simp only [Option.some.injEq] at h
        subst h
        have := hdb n d deadline hk
        omega
      · rw [if_neg htl] at h
        simp at h
  · intro nst n r h
    rw [nonceGet, h]

/-- Witness for C4's amended statement: a live session record read before
its expiry is returned, and the theorem rules out its being expired. -/
theorem store_readTimeExpiry_witness :
    ¬ (⟨"a".toList, 10, none, exampleMessage⟩ : SessionData).expiresAt < (5 : Int) :=
  (store_readTimeExpiry
      (fun _ => some ⟨"a".toList, 10, none, exampleMessage⟩) "t".toList 5).1
    ⟨"a".toList, 10, none, exampleMessage⟩ (by decide)

/-! ## Fixed-window rate limiting (`RedisRateLimitStore.increment`, redis.ts) -/

/-- `RateLimitData` (`{count, windowStart, expiresAt}`). -/
structure RateLimitData where
  count : Nat
  windowStart : Int
  expiresAt : Int
  deriving DecidableEq, Repr

/-- The `{allowed, count, resetTime}` result of `increment`. -/
structure RateLimitOutcome where
  allowed : Bool
  count : Nat
  resetTime : Int
  deriving DecidableEq, Repr

abbrev RateLimitMap := JStr → Option RateLimitData

/-- `RedisRateLimitStore.set`: records whose floored TTL is non-positive
are not stored. -/
def rlSet (st : RateLimitMap) (identifier : JStr) (d : RateLimitData)
    (now : Int) : RateLimitMap :=
  if (d.expiresAt - now) / 1000 ≤ 0 then st
  else fun k => if k = identifier then some d else st k

/-- `RedisRateLimitStore.increment` from redis.ts, sequential semantics (the
`exists` + `get` pair collapses to one lookup; they only disagree under a
concurrent race, where the code retries): a new window starts when no
record exists or the stored `windowStart` precedes `now - windowMs`; inside
an active window the call is rejected once `count ≥ maxRequests` and
otherwise increments.  Redis-side TTL reclamation is not tracked: it only
removes records at or after their `expiresAt`, which the window comparison
already treats as stale except in a sub-second boundary gap irrelevant
here. -/
def increment (st : RateLimitMap) (identifier : JStr) (windowMinutes : Int)
    (maxRequests : Nat) (now : Int) : RateLimitOutcome × RateLimitMap :=
  let windowMs := windowMinutes * 60 * 1000
  match st identifier with
  | none =>
    let resetTime := now + windowMs
    (⟨true, 1, resetTime⟩, rlSet st identifier ⟨1, now, resetTime⟩ now)
  | some data =>
    if data.windowStart ≥ now - windowMs then
      if data.count ≥ maxRequests then
        (⟨false, data.count, data.expiresAt⟩, st)
      else
        (⟨true, data.count + 1, data.expiresAt⟩,
          rlSet st identifier ⟨data.count + 1, data.windowStart, data.expiresAt⟩ now)
    else
      let resetTime := now + windowMs
      (⟨true, 1, resetTime⟩, rlSet st identifier ⟨1, now, resetTime⟩ now)

/-- Iterate `increment` at a fixed clock, collecting the outcomes in order. -/
def incrementTimes : Nat → RateLimitMap → JStr → Int → Nat → Int →
    List RateLimitOutcome × RateLimitMap
  | 0, st, _, _, _, _ => ([], st)
  | n + 1, st, identifier, w, mx, now =>
    let r := increment st identifier w mx now
    let rest := incrementTimes n r.2 identifier w mx now
    (r.1 :: rest.1, rest.2)

/-- C9: with `maxRequests = 10` and `windowMinutes = 15`, starting from no
record, the first ten increments within the window are allowed with counts
1..10 and the eleventh is rejected; and in general an increment whose
stored window start precedes `now - windowMinutes` starts a new window,
allowed with the count reset to 1. -/
theorem rateLimit_fixedWindow :
    ((incrementTimes 11 (fun _ => none) "ip".toList 15 10 0).1.map
        (fun o => (o.allowed, o.count)) =
      [(true, 1), (true, 2), (true, 3), (true, 4), (true, 5), (true, 6),
       (true, 7), (true, 8), (true, 9), (true, 10), (false, 10)]) ∧
    (∀ (st : RateLimitMap) (identifier : JStr) (w : Int) (mx : Nat)
        (now : Int) (data : RateLimitData),
      st identifier = some data →
      data.windowStart < now - w * 60 * 1000 →
      (increment st identifier w mx now).1 = ⟨true, 1, now + w * 60 * 1000⟩) := by
  constructor
  · decide
  · intro st identifier w mx now data hd hw
    rw [increment]
    simp only [hd]
    rw [if_neg (by omega)]

/-- Witness for C9: the first request of a rolled-over window (previous
window start 0, read at 900001 ms with a 15-minute window) is allowed with
count 1. -/
theorem rateLimit_fixedWindow_witness :
    (increment (fun _ => some ⟨10, 0, 900000⟩) "ip".toList 15 10 900001).1 =
      ⟨true, 1, 900001 + 15 * 60 * 1000⟩ :=
  rateLimit_fixedWindow.2 (fun _ => some ⟨10, 0, 900000⟩) "ip".toList 15 10
    900001 ⟨10, 0, 900000⟩ rfl (by decide)

/-- Witness for C10: passing `domain = ""` yields the same result as passing
no domain option at a concrete input. -/
theorem verify_emptyOptionDisables_witness :
    verify cryptoApiEx (serializeMessage exampleMessage) "SIG".toList
      exampleMessage.address ⟨some [], none, true⟩ =
    verify cryptoApiEx (serializeMessage exampleMessage) "SIG".toList
      exampleMessage.address ⟨none, none, true⟩ :=
  (verify_emptyOptionDisables cryptoApiEx (serializeMessage exampleMessage)
    "SIG".toList exampleMessage.address).1 none true
